/-
Verification of the trending aggregation and ranking engine
(src/dataProcessor.js of the github-trending-report repository).

The JavaScript source is shallowly embedded below:
  * strings are Lean `String`s (JS `.length` counts UTF-16 code units, so a
    dedicated `jsLength` is used wherever the source reads `.length`);
  * the per-day snapshot JSON body is `SnapData` (`nonArray` models a body
    that parses but is not an array; a `none` entry models a `null` element;
    a missing string field is the empty string, which matches every
    truthiness test the source performs on those fields);
  * the module-level mutable objects (`projectSummariesCache`,
    `translationCache`) are passed explicitly as association lists that
    preserve JS object insertion order;
  * `fs` access is abstracted: the directory listing, the per-file parse
    results, the current time in epoch milliseconds and write outcomes are
    parameters;
  * `Array.prototype.sort` is stable and the source comparators are
    consistent total preorders, so the sort is embedded as a stable
    insertion sort (`sortB`), which computes the same unique stable result.
-/
import Mathlib

/-! ## Small JS-faithful string utilities -/

/-- JS `String.prototype.length`: number of UTF-16 code units. -/
def jsLength (s : String) : Nat :=
  s.data.foldl (fun n c => n + (if c.toNat < 65536 then 1 else 2)) 0

/-- JS `String.prototype.toLowerCase` restricted to ASCII, which is the only
range the source ever feeds it (repository names and English descriptions). -/
def jsToLower (s : String) : String :=
  String.mk (s.data.map Char.toLower)

/-- JS `String.prototype.startsWith` on code units. -/
def jsStartsWith (s pre : String) : Bool :=
  pre.data.isPrefixOf s.data

/-- JS `String.prototype.endsWith` on code units. -/
def jsEndsWith (s suf : String) : Bool :=
  suf.data.isSuffixOf s.data

/-- JS `String.prototype.split` with a non-empty separator: cut at each
leftmost non-overlapping occurrence.  Structural recursion on a fuel that
starts at the list length. -/
def splitAux (sep : List Char) : Nat → List Char → List Char → List (List Char)
  | 0, acc, l => [acc.reverse ++ l]
  | _ + 1, acc, [] => [acc.reverse]
  | fuel + 1, acc, c :: rest =>
    if sep.isPrefixOf (c :: rest) then
      acc.reverse :: splitAux sep fuel [] (rest.drop (sep.length - 1))
    else
      splitAux sep fuel (c :: acc) rest

def jsSplit (s sep : String) : List String :=
  (splitAux sep.data s.data.length [] s.data).map String.mk

/-- JS `String.prototype.includes` on char lists. -/
def containsSub : List Char → List Char → Bool
  | [], needle => needle.isEmpty
  | c :: rest, needle => needle.isPrefixOf (c :: rest) || containsSub rest needle

/-- Case-insensitive global replacement, the semantics of
`str.replace(new RegExp(pat, 'gi'), rep)` for a literal pattern: leftmost,
non-overlapping, resuming after each match.  Structural recursion on a fuel
that starts at the list length (each step consumes at least one char). -/
def replaceCIAux (pat rep : List Char) : Nat → List Char → List Char
  | 0, l => l
  | _ + 1, [] => []
  | fuel + 1, c :: rest =>
    if (pat.map Char.toLower).isPrefixOf ((c :: rest).map Char.toLower) then
      rep ++ replaceCIAux pat rep fuel (rest.drop (pat.length - 1))
    else
      c :: replaceCIAux pat rep fuel rest

def replaceCI (pat rep s : List Char) : List Char :=
  replaceCIAux pat rep s.length s

/-- Digit-prefix value, most significant first. -/
def digitsToNat (l : List Char) : Nat :=
  l.foldl (fun n c => n * 10 + (c.toNat - 48)) 0

def isHexDigitChar (c : Char) : Bool :=
  c.isDigit || ('a' ≤ c.toLower && c.toLower ≤ 'f')

def hexDigitVal (c : Char) : Nat :=
  if c.isDigit then c.toNat - 48 else c.toLower.toNat - 87

def hexToNat (l : List Char) : Nat :=
  l.foldl (fun n c => n * 16 + hexDigitVal c) 0

def jsWhitespace (c : Char) : Bool :=
  c = ' ' || c = '\t' || c = '\n' || c = '\r' || c = '\x0b' || c = '\x0c'

/-- JS `parseInt(s)` (radix omitted): skip whitespace, optional sign,
`0x`/`0X` prefix switches to hexadecimal, otherwise longest decimal digit
prefix; `none` is `NaN`. -/
def parseIntJS (s : String) : Option Int :=
  let cs := s.data.dropWhile jsWhitespace
  let signed : Int × List Char :=
    match cs with
    | '+' :: r => (1, r)
    | '-' :: r => (-1, r)
    | _ => (1, cs)
  match signed.2 with
  | '0' :: x :: r =>
    if x = 'x' ∨ x = 'X' then
      let hx := r.takeWhile isHexDigitChar
      if hx.isEmpty then none else some (signed.1 * (hexToNat hx : Int))
    else
      some (signed.1 * (digitsToNat (('0' :: x :: r).takeWhile Char.isDigit) : Int))
  | rest =>
    let ds := rest.takeWhile Char.isDigit
    if ds.isEmpty then none else some (signed.1 * (digitsToNat ds : Int))

/-- `stars.replace(/,/g, '')` (dataProcessor.js:136). -/
def stripCommas (s : String) : String :=
  String.mk (s.data.filter (fun c => c ≠ ','))

/-- JS string `<`: lexicographic on UTF-16 code units (code points coincide
for the ASCII file names compared here). -/
def lexLt : List Char → List Char → Bool
  | [], [] => false
  | [], _ :: _ => true
  | _ :: _, [] => false
  | a :: as, b :: bs =>
    if a.toNat < b.toNat then true
    else if b.toNat < a.toNat then false
    else lexLt as bs

def strLtB (s t : String) : Bool :=
  lexLt s.data t.data

/-! ## Generic stable insertion sort

`Array.prototype.sort` with a consistent comparator is stable, hence computes
the unique stably ordered permutation; `sortB lt` computes the same list,
where `lt a b` means "the comparator says `a` comes strictly before `b`". -/

def insB {α : Type} (lt : α → α → Bool) (x : α) : List α → List α
  | [] => [x]
  | y :: ys => if lt y x then y :: insB lt x ys else x :: y :: ys

def sortB {α : Type} (lt : α → α → Bool) : List α → List α
  | [] => []
  | x :: xs => insB lt x (sortB lt xs)

/-! ## Data model (spec §3, shapes consumed by dataProcessor.js) -/

/-- One snapshot entry, the record shape produced by the scraper.  A string
field the JSON omits is the empty string, matching every truthiness test the
source performs on these fields. -/
structure Entry where
  name : String := ""
  url : String := ""
  description : String := ""
  stars : String := ""
  deriving DecidableEq

/-- A parsed snapshot body: a JSON array (whose elements may be `null`), or
any non-array JSON value. -/
inductive SnapData where
  | arr : List (Option Entry) → SnapData
  | nonArray : SnapData
  deriving DecidableEq

/-- One element of the list `readHistoryData` returns: `{ date, data }`. -/
structure HistoryItem where
  date : String
  data : SnapData
  deriving DecidableEq

/-- The per-entity aggregate built by `calculateRanking` (its `repoMap`
values). -/
structure RepoInfo where
  name : String
  url : String
  description : String
  stars : String
  count : Nat
  dates : List String
  deriving DecidableEq

/-! ## calculateRanking (dataProcessor.js:81-143) -/

/-- First encounter of a name: `repoMap.set(name, {...})`
(dataProcessor.js:101-110). -/
def initInfo (r : Entry) : RepoInfo :=
  { name := r.name
    url := r.url
    description := r.description
    stars := if r.stars = "" then "0" else r.stars
    count := 0
    dates := [] }

/-- The per-occurrence update (dataProcessor.js:112-125): increment `count`,
record the date once, and overwrite `stars` whenever the entry has a truthy
`stars` value. -/
def updateInfo (date : String) (r : Entry) (info : RepoInfo) : RepoInfo :=
  { info with
    count := info.count + 1
    dates := if date ∈ info.dates then info.dates else info.dates ++ [date]
    stars := if r.stars = "" then info.stars else r.stars }

/-- Get-or-create followed by the update, on the insertion-ordered entry list
modelling the `Map`. -/
def insertEntry (date : String) (r : Entry) : List RepoInfo → List RepoInfo
  | [] => [updateInfo date r (initInfo r)]
  | info :: rest =>
    if info.name = r.name then updateInfo date r info :: rest
    else info :: insertEntry date r rest

/-- One loop iteration over a snapshot element (dataProcessor.js:92-126):
skip `null` entries and entries with a falsy `name`. -/
def foldEntry (date : String) (m : List RepoInfo) (e : Option Entry) : List RepoInfo :=
  match e with
  | none => m
  | some r => if r.name = "" then m else insertEntry date r m

/-- One loop iteration over a history item (dataProcessor.js:86-127): a
non-array body is skipped. -/
def processSnapshot (m : List RepoInfo) (item : HistoryItem) : List RepoInfo :=
  match item.data with
  | SnapData.nonArray => m
  | SnapData.arr es => es.foldl (foldEntry item.date) m

/-- The fold of dataProcessor.js:83-127; the resulting list is in first-seen
order, as `Map.prototype.values` iterates in insertion order. -/
def buildRepoMap (historyData : List HistoryItem) : List RepoInfo :=
  historyData.foldl processSnapshot []

/-- `parseInt(info.stars.replace(/,/g, '')) || 0` (dataProcessor.js:136-137);
`|| 0` maps `NaN` (and `-0`) to `0`. -/
def numStars (info : RepoInfo) : Int :=
  (parseIntJS (stripCommas info.stars)).getD 0

/-- The sort comparator of dataProcessor.js:130-139, as the strict
"comes before" relation: `keyLTb a b` iff the comparator returns a negative
number on `(a, b)`. -/
def keyLTb (a b : RepoInfo) : Bool :=
  if a.count ≠ b.count then decide (b.count < a.count)
  else decide (numStars b < numStars a)

def sortRanking (l : List RepoInfo) : List RepoInfo :=
  sortB keyLTb l

/-- `config.ranking.maxItems` (config.js). -/
def maxItems : Nat := 10

/-- dataProcessor.js:81-143. -/
def calculateRanking (historyData : List HistoryItem) : List RepoInfo :=
  (sortRanking (buildRepoMap historyData)).take maxItems

/-! ## readHistoryData (dataProcessor.js:22-73) -/

def trendingPfx : String := "trending_"

def trendingExt : String := ".json"

/-- The `readdirSync` filter (dataProcessor.js:33-36). -/
def nameFilter (f : String) : Bool :=
  jsStartsWith f trendingPfx && jsEndsWith f trendingExt

def stripLit : List Char → List Char → Option (List Char)
  | [], cs => some cs
  | _ :: _, [] => none
  | l :: ls, c :: cs => if c = l then stripLit ls cs else none

def takeDigits : Nat → List Char → Option (List Char × List Char)
  | 0, cs => some ([], cs)
  | _ + 1, [] => none
  | n + 1, c :: cs =>
    if c.isDigit then
      match takeDigits n cs with
      | some (ds, rest) => some (c :: ds, rest)
      | none => none
    else none

/-- Try the pattern `trending_(\d{4}-\d{2}-\d{2})\.json` at this exact
position, returning the capture group. -/
def matchAt (cs : List Char) : Option (List Char) :=
  match stripLit ("trending_").data cs with
  | none => none
  | some r1 =>
    match takeDigits 4 r1 with
    | none => none
    | some (y, r2) =>
      match r2 with
      | '-' :: r3 =>
        match takeDigits 2 r3 with
        | none => none
        | some (mo, r4) =>
          match r4 with
          | '-' :: r5 =>
            match takeDigits 2 r5 with
            | none => none
            | some (d, r6) =>
              match stripLit (".json").data r6 with
              | none => none
              | some _ => some (y ++ '-' :: mo ++ '-' :: d)
          | _ => none
      | _ => none

def findDateAux : List Char → Option (List Char)
  | [] => none
  | c :: rest =>
    match matchAt (c :: rest) with
    | some d => some d
    | none => findDateAux rest

/-- `file.match(/trending_(\d{4}-\d{2}-\d{2})\.json/)`: leftmost match of the
unanchored pattern, yielding the captured day key. -/
def regexFindDate (s : String) : Option String :=
  match findDateAux s.data with
  | some d => some (String.mk d)
  | none => none

/-- The day key the source extracts from a file name (`match[1]`, or `''`
when the pattern is absent, dataProcessor.js:60-61). -/
def dayKeyOf (f : String) : String :=
  match regexFindDate f with
  | some d => d
  | none => ""

def isLeap (y : Nat) : Bool :=
  (y % 4 = 0 && y % 100 ≠ 0) || y % 400 = 0

def daysInMonth (y m : Nat) : Nat :=
  match m with
  | 2 => if isLeap y then 29 else 28
  | 4 => 30
  | 6 => 30
  | 9 => 30
  | 11 => 30
  | _ => 31

def monthDays (m : Nat) : Nat :=
  match m with
  | 1 => 0 | 2 => 31 | 3 => 59 | 4 => 90 | 5 => 120 | 6 => 151
  | 7 => 181 | 8 => 212 | 9 => 243 | 10 => 273 | 11 => 304 | 12 => 334
  | _ => 0

def daysBeforeMonth (y m : Nat) : Nat :=
  monthDays m + (if 2 < m then (if isLeap y then 1 else 0) else 0)

/-- Leap years in `[0, y)` of the proleptic Gregorian calendar. -/
def leapsBefore (y : Nat) : Nat :=
  (y + 3) / 4 - (y + 99) / 100 + (y + 399) / 400

/-- Epoch milliseconds of `y-m-d` at 00:00 UTC, the value of
`new Date("YYYY-MM-DD").getTime()`; `719528` days separate 0000-03-01-style
day zero (0000-01-01) from 1970-01-01. -/
def epochMs (y m d : Nat) : Int :=
  (((365 * y + leapsBefore y + daysBeforeMonth y m + (d - 1) : Nat) : Int) - 719528)
    * 86400000

/-- `new Date("YYYY-MM-DD")` on the captured day key: a calendar-invalid
month or day yields an Invalid Date (`none`, whose comparisons are all
false). -/
def dateToMs (s : String) : Option Int :=
  match s.data with
  | [y1, y2, y3, y4, '-', m1, m2, '-', d1, d2] =>
    if [y1, y2, y3, y4, m1, m2, d1, d2].all Char.isDigit then
      let y := digitsToNat [y1, y2, y3, y4]
      let m := digitsToNat [m1, m2]
      let d := digitsToNat [d1, d2]
      if 1 ≤ m ∧ m ≤ 12 ∧ 1 ≤ d ∧ d ≤ daysInMonth y m then some (epochMs y m d)
      else none
    else none
  | _ => none

/-- The window filter of dataProcessor.js:47-51:
`fileDate >= cutoffDate && fileDate <= now` with
`cutoffDate = now - days*24*60*60*1000`. -/
def inWindow (nowMs : Int) (days : Nat) (f : String) : Bool :=
  match regexFindDate f with
  | none => false
  | some ds =>
    match dateToMs ds with
    | none => false
    | some ms =>
      decide (nowMs - (days : Int) * 86400000 ≤ ms) && decide (ms ≤ nowMs)

/-- `files.filter(...in range...).sort().reverse()` (dataProcessor.js:47-52),
applied to the already name-filtered listing. -/
def selectRecentFiles (files : List String) (nowMs : Int) (days : Nat) : List String :=
  (sortB strLtB ((files.filter nameFilter).filter (inWindow nowMs days))).reverse

/-- The per-file read loop (dataProcessor.js:55-66): a file whose content
fails to read or parse (`none`) is logged and skipped; the rest become
`{ date, data }` items in order. -/
def readFiles : List (String × Option SnapData) → List HistoryItem
  | [] => []
  | (_, none) :: rest => readFiles rest
  | (d, some s) :: rest => { date := d, data := s } :: readFiles rest

/-- dataProcessor.js:22-73.  `dirExists` abstracts `fs.existsSync(dataDir)`,
`files` the directory listing, `contents` the read-and-parse outcome per
file name, `nowMs` the current instant. -/
def readHistoryData (dirExists : Bool) (files : List String) (nowMs : Int)
    (days : Nat) (contents : String → Option SnapData) : List HistoryItem :=
  if dirExists = false then []
  else if (files.filter nameFilter).isEmpty then []
  else readFiles ((selectRecentFiles files nowMs days).map (fun f => (dayKeyOf f, contents f)))

/-! ## Summary resolution (dataProcessor.js:151-336, 398-504) -/

/-- Truthy property read `obj[key]` on a JS object modelled as an
insertion-ordered association list: a missing key and an empty-string value
are both falsy. -/
def lookupTruthy : List (String × String) → String → Option String
  | [], _ => none
  | p :: rest, k =>
    if p.1 = k then (if p.2 = "" then none else some p.2) else lookupTruthy rest k

/-- JS property assignment `obj[k] = v`: overwrite in place, or append. -/
def insertCache : List (String × String) → String → String → List (String × String)
  | [], k, v => [(k, v)]
  | p :: rest, k, v =>
    if p.1 = k then (k, v) :: rest else p :: insertCache rest k v

/-- `'暂无描述'`, the "no description available" placeholder. -/
def noDescText : String := "暂无描述"

/-- The `📝 ` marker prefix of dataProcessor.js:332 and 490. -/
def markerStr : String := "📝 "

/-- The keyword table of dataProcessor.js:220-312 in object-literal insertion
order; the duplicated `'real-time'` key occupies its first position only, as
JS object semantics dictate. -/
def keywordMap : List (String × String) :=
  [("ai", "人工智能"),
   ("artificial intelligence", "人工智能"),
   ("machine learning", "机器学习"),
   ("deep learning", "深度学习"),
   ("neural", "神经网络"),
   ("llm", "大语言模型"),
   ("language model", "语言模型"),
   ("gpt", "GPT"),
   ("chatbot", "聊天机器人"),
   ("framework", "框架"),
   ("library", "库"),
   ("tool", "工具"),
   ("developer", "开发者"),
   ("development", "开发"),
   ("cli", "命令行工具"),
   ("sdk", "开发工具包"),
   ("api", "接口"),
   ("web", "Web"),
   ("frontend", "前端"),
   ("backend", "后端"),
   ("fullstack", "全栈"),
   ("react", "React"),
   ("vue", "Vue"),
   ("angular", "Angular"),
   ("node", "Node.js"),
   ("javascript", "JavaScript"),
   ("typescript", "TypeScript"),
   ("database", "数据库"),
   ("data", "数据"),
   ("cache", "缓存"),
   ("server", "服务器"),
   ("cloud", "云"),
   ("docker", "Docker"),
   ("kubernetes", "Kubernetes"),
   ("open source", "开源"),
   ("opensource", "开源"),
   ("github", "GitHub"),
   ("repository", "仓库"),
   ("build", "构建"),
   ("create", "创建"),
   ("manage", "管理"),
   ("deploy", "部署"),
   ("test", "测试"),
   ("monitor", "监控"),
   ("optimize", "优化"),
   ("automate", "自动化"),
   ("generate", "生成"),
   ("parse", "解析"),
   ("convert", "转换"),
   ("fast", "快速"),
   ("simple", "简单"),
   ("easy", "易于"),
   ("powerful", "强大"),
   ("modern", "现代"),
   ("lightweight", "轻量级"),
   ("high-performance", "高性能"),
   ("real-time", "实时"),
   ("distributed", "分布式"),
   ("crypto", "加密货币"),
   ("blockchain", "区块链"),
   ("video", "视频"),
   ("audio", "音频"),
   ("image", "图像"),
   ("game", "游戏"),
   ("mobile", "移动"),
   ("desktop", "桌面"),
   ("self-hosted", "自托管"),
   ("open-source", "开源"),
   ("cross-platform", "跨平台"),
   ("file", "文件"),
   ("system", "系统"),
   ("plugin", "插件"),
   ("extension", "扩展")]

/-- The keyword loop of dataProcessor.js:318-327: presence is tested on the
lower-cased original text, the replacement is applied (case-insensitively,
globally) to the current partially substituted result. -/
def substituteKeywords (text : String) : String :=
  let lowerText := jsToLower text
  keywordMap.foldl
    (fun result p =>
      if containsSub lowerText.data p.1.data then
        String.mk (replaceCI p.1.data p.2.data result.data)
      else result)
    text

/-- dataProcessor.js:216-336. -/
def simpleTranslate (text : String) : String :=
  if text = "" then text
  else
    let result := if jsLength text < 100 then substituteKeywords text else text
    if result = text ∧ 20 < jsLength text then markerStr ++ text else result

/-- The curated lookups of dataProcessor.js:183-196: full name first, then
the short name (text after the last `/`) when the name contains a `/`;
`curated` models the module-level `projectSummariesCache`. -/
def curatedLookup (curated : List (String × String)) (name : String) : Option String :=
  match lookupTruthy curated (jsToLower name) with
  | some v => some v
  | none =>
    let parts := jsSplit name ("/")
    if 1 < parts.length then lookupTruthy curated (jsToLower (parts.getLastD ""))
    else none

/-- dataProcessor.js:182-208. -/
def getChineseSummary (curated : List (String × String))
    (projectName originalDesc : String) : String :=
  match curatedLookup curated projectName with
  | some v => v
  | none =>
    if originalDesc ≠ "" ∧ simpleTranslate originalDesc ≠ originalDesc then
      simpleTranslate originalDesc
    else if originalDesc = "" then noDescText
    else originalDesc

/-- dataProcessor.js:474-504, with the module-level `translationCache`
passed and returned explicitly.  The trailing OpenAI dispatch is disabled in
the shipped configuration (`config.openai.enabled = false`) and in any case
never contributes to the synchronous return value, which is `null` on that
path. -/
def translateWithCache (cache : List (String × String)) (projectName text : String) :
    Option String × List (String × String) :=
  if text = "" then (none, cache)
  else
    match lookupTruthy cache (jsToLower projectName) with
    | some v => (some v, cache)
    | none =>
      if simpleTranslate text ≠ text then
        (some (simpleTranslate text),
         insertCache cache (jsToLower projectName) (simpleTranslate text))
      else if 20 < jsLength text then
        (none, insertCache cache (jsToLower projectName) (markerStr ++ text))
      else (none, cache)

/-- dataProcessor.js:417-434, with explicit cache state. -/
def getDetailedDescription (curated cache : List (String × String))
    (name desc : String) : String × List (String × String) :=
  let cnSummary := getChineseSummary curated name desc
  if cnSummary ≠ "" ∧ cnSummary ≠ desc ∧ cnSummary ≠ noDescText then (cnSummary, cache)
  else if desc = "" then (noDescText, cache)
  else
    match translateWithCache cache name desc with
    | (some t, cache2) => (t, cache2)
    | (none, cache2) => (desc, cache2)

/-! ## The builder's persistence error handling (dataProcessor.js:343-390,
456-464) -/

/-- The enriched three-window payload `{ week, month, quarter }`. -/
structure RankingPayload where
  week : List RepoInfo
  month : List RepoInfo
  quarter : List RepoInfo
  deriving DecidableEq

/-- `saveTranslationCache` (dataProcessor.js:456-464): the write is wrapped
in try/catch whose catch only calls `console.warn`; both outcomes fall
through. -/
def saveTranslationCacheModel (cacheWriteResult : Except String Unit) : Unit :=
  match cacheWriteResult with
  | Except.ok _ => ()
  | Except.error _ => ()

/-- The tail of `generateRankingData` (dataProcessor.js:362-390): the cache
write, then the payload write wrapped in try/catch whose catch only calls
`console.error` (line 382), then the unconditional `return` of the in-memory
payload (lines 385-389).  File writes are abstracted as `Except` outcomes;
an `Except.error` result would model the function throwing. -/
def generateRankingData (payload : RankingPayload)
    (cacheWriteResult payloadWriteResult : Except String Unit) :
    Except String RankingPayload :=
  let _ := saveTranslationCacheModel cacheWriteResult
  match payloadWriteResult with
  | Except.ok _ => Except.ok payload
  | Except.error _ => Except.ok payload

/-! ## Derived/spec-side definitions used by the claims -/

/-- Does a snapshot element carry this (non-empty) entity name? -/
def entryNamed (n : String) : Option Entry → Bool
  | none => false
  | some r => decide (r.name = n)

/-- Occurrences of the name inside one snapshot body. -/
def occCount (n : String) : SnapData → Nat
  | SnapData.nonArray => 0
  | SnapData.arr es => es.countP (entryNamed n)

/-- Does the snapshot contain an entry with this name? -/
def containsName (n : String) (s : SnapData) : Bool :=
  match s with
  | SnapData.nonArray => false
  | SnapData.arr es => es.any (entryNamed n)

/-- Names of the non-null entries of a snapshot body; the data model (spec
§3) declares `name` a unique key within a day. -/
def snapNames : SnapData → List String
  | SnapData.nonArray => []
  | SnapData.arr es => (es.filterMap id).map (fun r => r.name)

/-- The aggregated `count` recorded for a name (`repoMap.get(name).count`,
`0` when absent). -/
def countFor : List RepoInfo → String → Nat
  | [], _ => 0
  | i :: rest, n => if i.name = n then i.count else countFor rest n

def namesOf (m : List RepoInfo) : List String :=
  m.map (fun i => i.name)

/-- Well-formedness the aggregation fold maintains: every aggregate carries a
non-empty name, and no two aggregates share a name. -/
def goodMap (m : List RepoInfo) : Prop :=
  (∀ i ∈ m, i.name ≠ "") ∧ (namesOf m).Nodup

/-- The sort key of the comparator: occurrence count, then numeric stars. -/
def rankKey (i : RepoInfo) : Nat × Int :=
  (i.count, numStars i)

/-- The display-resolution chain exactly as claim C9 words it (refinement
target): keyword substitution for descriptions under 100 UTF-16 units when
it changes the text, the marker prefix when nothing changed and the length
exceeds 20, the fixed placeholder for an empty description, otherwise the
raw description verbatim. -/
def displayResolutionSpec (desc : String) : String :=
  if desc = "" then noDescText
  else if jsLength desc < 100 ∧ substituteKeywords desc ≠ desc then substituteKeywords desc
  else if 20 < jsLength desc then markerStr ++ desc
  else desc

/-! ## Lemmas: the stable insertion sort -/

theorem perm_insB {α : Type} (lt : α → α → Bool) (x : α) :
    ∀ l : List α, List.Perm (insB lt x l) (x :: l)
  | [] => List.Perm.refl _
  | y :: ys => by
    simp only [insB]
    split
    · exact (List.Perm.cons y (perm_insB lt x ys)).trans (List.Perm.swap x y ys)
    · exact List.Perm.refl _

theorem perm_sortB {α : Type} (lt : α → α → Bool) :
    ∀ l : List α, List.Perm (sortB lt l) l
  | [] => List.Perm.refl _
  | x :: xs => (perm_insB lt x (sortB lt xs)).trans (List.Perm.cons x (perm_sortB lt xs))

theorem mem_of_mem_insB {α : Type} {lt : α → α → Bool} {x z : α} {l : List α}
    (h : z ∈ insB lt x l) : z = x ∨ z ∈ l := by
  have := (perm_insB lt x l).mem_iff.mp h
  simpa using this

theorem pairwise_insB {α : Type} (lt : α → α → Bool)
    (hasym : ∀ a b, lt a b = true → lt b a = false)
    (hco : ∀ a b c, lt c a = true → lt c b = true ∨ lt b a = true)
    (x : α) :
    ∀ l : List α, List.Pairwise (fun a b => lt b a = false) l →
      List.Pairwise (fun a b => lt b a = false) (insB lt x l)
  | [], _ => List.pairwise_singleton _ _
  | y :: ys, h => by
    rcases List.pairwise_cons.mp h with ⟨hy, hys⟩
    simp only [insB]
    split
    · rename_i hlt
      refine List.pairwise_cons.mpr ⟨?_, pairwise_insB lt hasym hco x ys hys⟩
      intro z hz
      rcases mem_of_mem_insB hz with rfl | hz'
      · exact hasym y z hlt
      · exact hy z hz'
    · rename_i hnlt
      refine List.pairwise_cons.mpr ⟨?_, h⟩
      intro z hz
      rcases List.mem_cons.mp hz with rfl | hz'
      · simpa using hnlt
      · have hzy := hy z hz'
        cases hzx : lt z x
        · rfl
        · rcases hco x y z hzx with h1 | h2
          · rw [hzy] at h1; cases h1
          · rw [h2] at hnlt; cases hnlt rfl

theorem pairwise_sortB {α : Type} (lt : α → α → Bool)
    (hasym : ∀ a b, lt a b = true → lt b a = false)
    (hco : ∀ a b c, lt c a = true → lt c b = true ∨ lt b a = true) :
    ∀ l : List α, List.Pairwise (fun a b => lt b a = false) (sortB lt l)
  | [] => List.Pairwise.nil
  | x :: xs => pairwise_insB lt hasym hco x (sortB lt xs) (pairwise_sortB lt hasym hco xs)

theorem filter_insB {α : Type} (lt : α → α → Bool) (p : α → Bool) (x : α)
    (hp : ∀ y, p y = true → p x = true → lt y x = false) :
    ∀ l : List α,
      (insB lt x l).filter p = if p x then x :: l.filter p else l.filter p
  | [] => by
    simp only [insB]
    rw [List.filter_cons]
  | y :: ys => by
    simp only [insB]
    by_cases hlt : lt y x = true
    · rw [if_pos hlt, List.filter_cons, filter_insB lt p x hp ys, List.filter_cons]
      cases hpx : p x
      · simp [hpx]
      · have hpy : p y = false := by
          cases hpy : p y
          · rfl
          · rw [hp y hpy hpx] at hlt; simp at hlt
        simp [hpy, hpx]
    · rw [if_neg hlt, List.filter_cons]

theorem filter_sortB {α : Type} (lt : α → α → Bool) (p : α → Bool)
    (hkey : ∀ a b, p a = true → p b = true → lt a b = false) :
    ∀ l : List α, (sortB lt l).filter p = l.filter p
  | [] => rfl
  | x :: xs => by
    simp only [sortB]
    rw [filter_insB lt p x (fun y hy hx => hkey y x hy hx) (sortB lt xs),
      filter_sortB lt p hkey xs, List.filter_cons]

theorem length_sortB {α : Type} (lt : α → α → Bool) (l : List α) :
    (sortB lt l).length = l.length :=
  (perm_sortB lt l).length_eq

/-! ## Lemmas: the ranking comparator -/

theorem keyLTb_asymm (a b : RepoInfo) : keyLTb a b = true → keyLTb b a = false := by
  simp only [keyLTb]
  split_ifs <;> simp <;> omega

theorem keyLTb_co (x y z : RepoInfo) :
    keyLTb z x = true → keyLTb z y = true ∨ keyLTb y x = true := by
  simp only [keyLTb]
  split_ifs <;> simp <;> omega

theorem keyLTb_eq_rankKey (a b : RepoInfo) (ha : rankKey a = rankKey b) :
    keyLTb a b = false := by
  have h1 : a.count = b.count := congrArg Prod.fst ha
  have h2 : numStars a = numStars b := congrArg Prod.snd ha
  simp [keyLTb, h1, h2]

/-! ## Lemmas: JS string order -/

theorem lexLt_asymm : ∀ a b, lexLt a b = true → lexLt b a = false
  | [], [] => by simp [lexLt]
  | [], _ :: _ => by intro _; rfl
  | _ :: _, [] => by simp [lexLt]
  | a :: as, b :: bs => by
    simp only [lexLt]
    intro h
    by_cases h1 : a.toNat < b.toNat
    · rw [if_neg (by omega : ¬ b.toNat < a.toNat), if_pos h1]
    · by_cases h2 : b.toNat < a.toNat
      · rw [if_neg h1, if_pos h2] at h; cases h
      · rw [if_neg h1, if_neg h2] at h
        rw [if_neg h2, if_neg h1]
        exact lexLt_asymm as bs h

theorem lexLt_co : ∀ c a b, lexLt c a = true → lexLt c b = true ∨ lexLt b a = true
  | [], [], _ => by simp [lexLt]
  | [], _ :: _, [] => by intro _; right; rfl
  | [], _ :: _, _ :: _ => by intro _; left; rfl
  | _ :: _, [], _ => by simp [lexLt]
  | _ :: _, _ :: _, [] => by intro _; right; rfl
  | c :: cs, a :: as, b :: bs => by
    intro h
    simp only [lexLt] at h
    by_cases hca : c.toNat < a.toNat
    · by_cases hcb : c.toNat < b.toNat
      · left; simp only [lexLt]; rw [if_pos hcb]
      · right; simp only [lexLt]; rw [if_pos (by omega : b.toNat < a.toNat)]
    · by_cases hac : a.toNat < c.toNat
      · rw [if_neg hca, if_pos hac] at h; cases h
      · rw [if_neg hca, if_neg hac] at h
        by_cases hcb : c.toNat < b.toNat
        · left; simp only [lexLt]; rw [if_pos hcb]
        · by_cases hbc : b.toNat < c.toNat
          · right; simp only [lexLt]; rw [if_pos (by omega : b.toNat < a.toNat)]
          · rcases lexLt_co cs as bs h with h1 | h2
            · left; simp only [lexLt]
              rw [if_neg hcb, if_neg hbc]; exact h1
            · right; simp only [lexLt]
              rw [if_neg (by omega : ¬ b.toNat < a.toNat),
                if_neg (by omega : ¬ a.toNat < b.toNat)]
              exact h2

theorem lexLt_append_left : ∀ (p a b : List Char), lexLt (p ++ a) (p ++ b) = lexLt a b
  | [], _, _ => rfl
  | c :: p, a, b => by
    simp only [List.cons_append, lexLt]
    rw [if_neg (by omega : ¬ c.toNat < c.toNat), if_neg (by omega : ¬ c.toNat < c.toNat)]
    exact lexLt_append_left p a b

theorem lexLt_append_of_lt :
    ∀ (a b s t : List Char), a.length = b.length → lexLt a b = true →
      lexLt (a ++ s) (b ++ t) = true
  | [], [], _, _, _, h => by cases h
  | [], _ :: _, _, _, hlen, _ => by cases hlen
  | _ :: _, [], _, _, hlen, _ => by cases hlen
  | a :: as, b :: bs, s, t, hlen, h => by
    simp only [lexLt] at h
    simp only [List.cons_append, lexLt]
    by_cases h1 : a.toNat < b.toNat
    · rw [if_pos h1]
    · by_cases h2 : b.toNat < a.toNat
      · rw [if_neg h1, if_pos h2] at h; cases h
      · rw [if_neg h1, if_neg h2] at h
        rw [if_neg h1, if_neg h2]
        exact lexLt_append_of_lt as bs s t (by simpa using hlen) h

theorem lexLt_of_append_false (a b s t : List Char) (hlen : a.length = b.length)
    (h : lexLt (a ++ s) (b ++ t) = false) : lexLt a b = false := by
  cases hab : lexLt a b
  · rfl
  · rw [lexLt_append_of_lt a b s t hlen hab] at h; cases h

/-! ## Lemmas: occurrence counting in the aggregation fold -/

theorem updateInfo_name (d : String) (r : Entry) (i : RepoInfo) :
    (updateInfo d r i).name = i.name := rfl

theorem countFor_insertEntry (d : String) (r : Entry) (n : String) :
    ∀ m : List RepoInfo,
      countFor (insertEntry d r m) n = countFor m n + (if r.name = n then 1 else 0)
  | [] => by
    by_cases h : r.name = n <;>
      simp [insertEntry, countFor, updateInfo, initInfo, h]
  | info :: rest => by
    simp only [insertEntry]
    by_cases h1 : info.name = r.name
    · rw [if_pos h1]
      by_cases h2 : r.name = n
      · simp [countFor, updateInfo, h1, h2]
      · simp [countFor, updateInfo, h1, h2]
    · rw [if_neg h1]
      by_cases h3 : info.name = n
      · have h4 : ¬ r.name = n := fun hh => h1 (h3.trans hh.symm)
        simp [countFor, h3, h4]
      · simp [countFor, h3, countFor_insertEntry d r n rest]

theorem countFor_foldl_entries (date : String) (n : String) (hn : n ≠ "") :
    ∀ (es : List (Option Entry)) (m : List RepoInfo),
      countFor (es.foldl (foldEntry date) m) n = countFor m n + es.countP (entryNamed n)
  | [], m => by simp
  | e :: es, m => by
    rw [List.foldl_cons, countFor_foldl_entries date n hn es (foldEntry date m e),
      List.countP_cons]
    cases e with
    | none => simp [foldEntry, entryNamed]
    | some r =>
      by_cases hr : r.name = ""
      · have hrn : ¬ r.name = n := fun hh => hn (hh.symm.trans hr)
        simp [foldEntry, hr, entryNamed, hrn, Ne.symm hn]
      · by_cases hrn : r.name = n
        · simp [foldEntry, hr, hn, entryNamed, hrn, countFor_insertEntry]
          omega
        · simp [foldEntry, hr, hn, entryNamed, hrn, countFor_insertEntry]

theorem countFor_foldl_snaps (n : String) (hn : n ≠ "") :
    ∀ (h : List HistoryItem) (m : List RepoInfo),
      countFor (h.foldl processSnapshot m) n
        = countFor m n + (h.map (fun it => occCount n it.data)).sum
  | [], m => by simp
  | it :: h, m => by
    rw [List.foldl_cons, countFor_foldl_snaps n hn h (processSnapshot m it),
      List.map_cons, List.sum_cons]
    cases hd : it.data with
    | nonArray => simp [processSnapshot, hd, occCount]
    | arr es =>
      simp only [processSnapshot, hd, occCount]
      rw [countFor_foldl_entries it.date n hn es m]
      omega

theorem countP_names_eq (n : String) :
    ∀ es : List (Option Entry),
      es.countP (entryNamed n)
        = ((es.filterMap id).map (fun r => r.name)).countP (fun x => decide (x = n))
  | [] => rfl
  | none :: es => by
    simp [List.countP_cons, entryNamed, countP_names_eq n es]
  | some r :: es => by
    simp only [List.countP_cons, entryNamed, List.filterMap_cons, id, List.map_cons]
    rw [countP_names_eq n es]

theorem countP_eq_le_one (n : String) :
    ∀ l : List String, l.Nodup → l.countP (fun x => decide (x = n)) ≤ 1
  | [], _ => by simp
  | x :: l, hnd => by
    rcases List.nodup_cons.mp hnd with ⟨hx, hl⟩
    rw [List.countP_cons]
    by_cases hxn : x = n
    · have h0 : l.countP (fun x => decide (x = n)) = 0 := by
        rw [List.countP_eq_zero]
        intro a ha
        simp only [decide_eq_true_eq]
        intro haa
        exact hx (by rw [hxn, ← haa]; exact ha)
      simp [hxn, h0]
    · have := countP_eq_le_one n l hl
      simp [hxn]
      omega

theorem occCount_le_one (n : String) (s : SnapData) (hs : (snapNames s).Nodup) :
    occCount n s ≤ 1 := by
  cases s with
  | nonArray => simp [occCount]
  | arr es =>
    simp only [occCount]
    rw [countP_names_eq n es]
    exact countP_eq_le_one n _ (by simpa [snapNames] using hs)

theorem containsName_iff (n : String) (s : SnapData) :
    containsName n s = true ↔ 0 < occCount n s := by
  cases s with
  | nonArray => simp [containsName, occCount]
  | arr es =>
    simp only [containsName, occCount]
    rw [List.any_eq_true, List.countP_pos_iff]

theorem sum_occ_filter (n : String) :
    ∀ h : List HistoryItem, (∀ it ∈ h, occCount n it.data ≤ 1) →
      (h.map (fun it => occCount n it.data)).sum
        = (h.filter (fun it => containsName n it.data)).length
  | [], _ => rfl
  | it :: h, hb => by
    rw [List.map_cons, List.sum_cons, List.filter_cons]
    have hit := hb it (by simp)
    rw [sum_occ_filter n h (fun x hx => hb x (by simp [hx]))]
    by_cases hc : containsName n it.data = true
    · rw [if_pos hc]
      have h1 : 0 < occCount n it.data := (containsName_iff n it.data).mp hc
      rw [List.length_cons]
      omega
    · rw [if_neg hc]
      have h0 : occCount n it.data = 0 := by
        by_contra hne
        exact hc ((containsName_iff n it.data).mpr (by omega))
      omega

/-! ## Lemmas: map invariants (non-empty names, no duplicate names) -/

theorem namesOf_insertEntry (d : String) (r : Entry) :
    ∀ m : List RepoInfo, namesOf (insertEntry d r m)
      = if r.name ∈ namesOf m then namesOf m else namesOf m ++ [r.name]
  | [] => by simp [insertEntry, namesOf, updateInfo, initInfo]
  | info :: rest => by
    by_cases h1 : info.name = r.name
    · simp [insertEntry, h1, namesOf, updateInfo]
    · simp only [insertEntry, if_neg h1, namesOf, List.map_cons]
      have ih := namesOf_insertEntry d r rest
      simp only [namesOf] at ih
      rw [ih]
      by_cases h2 : r.name ∈ rest.map (fun i => i.name)
      · rw [if_pos h2, if_pos (by simp [h2])]
      · have h3 : ¬ r.name = info.name := fun hh => h1 hh.symm
        rw [if_neg h2, if_neg (by simp [List.mem_cons, h2, h3])]
        simp

theorem nonempty_insertEntry (d : String) (r : Entry) (hr : r.name ≠ "") :
    ∀ m : List RepoInfo, (∀ i ∈ m, i.name ≠ "") →
      ∀ i ∈ insertEntry d r m, i.name ≠ ""
  | [], _ => by
    intro i hi
    simp [insertEntry] at hi
    rw [hi]
    simpa [updateInfo, initInfo] using hr
  | info :: rest, hm => by
    intro i hi
    by_cases h1 : info.name = r.name
    · simp [insertEntry, h1] at hi
      rcases hi with hi | hi
      · rw [hi]
        simpa [updateInfo] using hm info (by simp)
      · exact hm i (by simp [hi])
    · simp [insertEntry, h1] at hi
      rcases hi with hi | hi
      · rw [hi]; exact hm info (by simp)
      · exact nonempty_insertEntry d r hr rest (fun j hj => hm j (by simp [hj])) i hi

theorem goodMap_insertEntry (d : String) (r : Entry) (hr : r.name ≠ "")
    (m : List RepoInfo) (hm : goodMap m) : goodMap (insertEntry d r m) := by
  refine ⟨nonempty_insertEntry d r hr m hm.1, ?_⟩
  rw [namesOf_insertEntry]
  by_cases h2 : r.name ∈ namesOf m
  · rw [if_pos h2]; exact hm.2
  · rw [if_neg h2]
    simp [List.nodup_append, hm.2, h2]

theorem goodMap_foldEntry (date : String) (e : Option Entry) (m : List RepoInfo)
    (hm : goodMap m) : goodMap (foldEntry date m e) := by
  cases e with
  | none => exact hm
  | some r =>
    by_cases hr : r.name = ""
    · simpa [foldEntry, hr] using hm
    · simpa [foldEntry, hr] using goodMap_insertEntry date r hr m hm

theorem goodMap_foldl_entries (date : String) :
    ∀ (es : List (Option Entry)) (m : List RepoInfo), goodMap m →
      goodMap (es.foldl (foldEntry date) m)
  | [], _, hm => hm
  | e :: es, m, hm =>
    goodMap_foldl_entries date es (foldEntry date m e) (goodMap_foldEntry date e m hm)

theorem goodMap_processSnapshot (it : HistoryItem) (m : List RepoInfo)
    (hm : goodMap m) : goodMap (processSnapshot m it) := by
  cases hd : it.data with
  | nonArray => simpa [processSnapshot, hd] using hm
  | arr es => simpa [processSnapshot, hd] using goodMap_foldl_entries it.date es m hm

theorem goodMap_foldl_snaps :
    ∀ (h : List HistoryItem) (m : List RepoInfo), goodMap m →
      goodMap (h.foldl processSnapshot m)
  | [], _, hm => hm
  | it :: h, m, hm =>
    goodMap_foldl_snaps h (processSnapshot m it) (goodMap_processSnapshot it m hm)

theorem goodMap_buildRepoMap (h : List HistoryItem) : goodMap (buildRepoMap h) :=
  goodMap_foldl_snaps h [] ⟨by simp, by simp [namesOf]⟩

theorem countFor_eq_count :
    ∀ m : List RepoInfo, (namesOf m).Nodup → ∀ i ∈ m, countFor m i.name = i.count
  | [], _ => by intro i hi; cases hi
  | j :: rest, hnd => by
    intro i hi
    rcases List.mem_cons.mp hi with rfl | hi2
    · simp [countFor]
    · have hnd2 : (j.name :: rest.map (fun k => k.name)).Nodup := by
        simpa [namesOf] using hnd
      have hj : ¬ j.name = i.name := by
        intro hh
        exact (List.nodup_cons.mp hnd2).1
          (hh ▸ List.mem_map_of_mem (fun k => k.name) hi2)
      simp only [countFor, if_neg hj]
      exact countFor_eq_count rest
        (by simpa [namesOf] using (List.nodup_cons.mp hnd2).2) i hi2

theorem mem_buildRepoMap_of_mem_ranking {i : RepoInfo} {h : List HistoryItem}
    (hi : i ∈ calculateRanking h) : i ∈ buildRepoMap h := by
  simp only [calculateRanking, sortRanking] at hi
  exact (perm_sortB keyLTb (buildRepoMap h)).subset (List.mem_of_mem_take hi)

/-! ## Lemmas: snapshot reading and file selection -/

theorem readFiles_append :
    ∀ a b : List (String × Option SnapData),
      readFiles (a ++ b) = readFiles a ++ readFiles b
  | [], _ => rfl
  | (d, none) :: a, b => by simp [readFiles, readFiles_append a b]
  | (d, some s) :: a, b => by simp [readFiles, readFiles_append a b]

theorem strData_append (s t : String) : (s ++ t).data = s.data ++ t.data := by
  cases s; cases t; rfl

theorem strLength_data (s : String) : s.length = s.data.length := rfl

theorem mem_selectRecentFiles (files : List String) (nowMs : Int) (days : Nat)
    (f : String) :
    f ∈ selectRecentFiles files nowMs days ↔
      f ∈ files ∧ nameFilter f = true ∧ inWindow nowMs days f = true := by
  simp only [selectRecentFiles, List.mem_reverse]
  rw [(perm_sortB strLtB _).mem_iff]
  simp only [List.mem_filter, and_assoc]

theorem pairwise_selectRecentFiles (files : List String) (nowMs : Int) (days : Nat) :
    List.Pairwise (fun a b => strLtB a b = false)
      (selectRecentFiles files nowMs days) := by
  have h1 := pairwise_sortB strLtB
    (fun a b h => lexLt_asymm a.data b.data h)
    (fun a b c h => lexLt_co c.data a.data b.data h)
    ((files.filter nameFilter).filter (inWindow nowMs days))
  simp only [selectRecentFiles]
  rw [List.pairwise_reverse]
  exact h1

theorem daykey_le_of_canonical (df dg : String) (h1 : df.length = 10)
    (h2 : dg.length = 10)
    (h : strLtB (trendingPfx ++ df ++ trendingExt)
          (trendingPfx ++ dg ++ trendingExt) = false) :
    strLtB df dg = false := by
  simp only [strLtB] at h ⊢
  have e1 : (trendingPfx ++ df ++ trendingExt).data
      = trendingPfx.data ++ (df.data ++ trendingExt.data) := by
    rw [strData_append, strData_append, List.append_assoc]
  have e2 : (trendingPfx ++ dg ++ trendingExt).data
      = trendingPfx.data ++ (dg.data ++ trendingExt.data) := by
    rw [strData_append, strData_append, List.append_assoc]
  rw [e1, e2, lexLt_append_left] at h
  refine lexLt_of_append_false df.data dg.data trendingExt.data trendingExt.data ?_ h
  rw [← strLength_data, ← strLength_data, h1, h2]

/-! ## Lemmas: summary resolution -/

theorem lookupTruthy_ne_empty :
    ∀ (m : List (String × String)) (k v : String),
      lookupTruthy m k = some v → v ≠ ""
  | [], _, _ => by intro h; cases h
  | p :: rest, k, v => by
    intro h
    simp only [lookupTruthy] at h
    by_cases h1 : p.1 = k
    · rw [if_pos h1] at h
      by_cases h2 : p.2 = ""
      · rw [if_pos h2] at h; cases h
      · rw [if_neg h2] at h
        cases h; exact h2
    · rw [if_neg h1] at h
      exact lookupTruthy_ne_empty rest k v h

theorem curatedLookup_ne_empty (curated : List (String × String)) (name v : String)
    (h : curatedLookup curated name = some v) : v ≠ "" := by
  simp only [curatedLookup] at h
  cases h1 : lookupTruthy curated (jsToLower name) with
  | some w =>
    rw [h1] at h
    cases h
    exact lookupTruthy_ne_empty curated (jsToLower name) v h1
  | none =>
    rw [h1] at h
    by_cases h2 : 1 < (jsSplit name ("/")).length
    · rw [if_pos h2] at h
      exact lookupTruthy_ne_empty curated _ v h
    · rw [if_neg h2] at h; cases h

theorem marker_data (s : String) : (markerStr ++ s).data = '📝' :: ' ' :: s.data := by
  rw [strData_append]; rfl

theorem marker_ne (s : String) : markerStr ++ s ≠ s := by
  intro h
  have h2 := congrArg (fun t : String => t.data.length) h
  simp only [marker_data, List.length_cons] at h2
  omega

theorem marker_ne_empty (s : String) : markerStr ++ s ≠ "" := by
  intro h
  have h2 := congrArg String.data h
  rw [marker_data] at h2
  simp at h2

theorem marker_ne_noDesc (s : String) : markerStr ++ s ≠ noDescText := by
  intro h
  have h2 := congrArg String.data h
  rw [marker_data] at h2
  have h3 := congrArg (fun l : List Char => l.headD ' ') h2
  simp only [List.headD_cons] at h3
  exact absurd h3 (by decide)

theorem jsLength_empty : jsLength "" = 0 := rfl

theorem ne_empty_of_jsLength (s : String) (h : 20 < jsLength s) : s ≠ "" := by
  intro hh
  rw [hh, jsLength_empty] at h
  omega

theorem simpleTranslate_of_subst (text : String) (ht : text ≠ "")
    (h100 : jsLength text < 100) (hsub : substituteKeywords text ≠ text) :
    simpleTranslate text = substituteKeywords text := by
  simp [simpleTranslate, ht, h100, hsub]

theorem simpleTranslate_of_long (text : String) (ht : text ≠ "")
    (hsub : substituteKeywords text = text) (h20 : 20 < jsLength text) :
    simpleTranslate text = markerStr ++ text := by
  by_cases h100 : jsLength text < 100 <;> simp [simpleTranslate, ht, h100, hsub, h20]

theorem simpleTranslate_of_short (text : String) (ht : text ≠ "")
    (hsub : substituteKeywords text = text) (h20 : ¬ 20 < jsLength text) :
    simpleTranslate text = text := by
  have h100 : jsLength text < 100 := by omega
  simp [simpleTranslate, ht, h100, hsub, h20]

/-- The display chain of `getChineseSummary` once both curated lookups miss
(helper shared by several claims). -/
theorem displayChain_of_miss (curated : List (String × String)) (name desc : String)
    (hmiss : curatedLookup curated name = none) :
    getChineseSummary curated name desc = displayResolutionSpec desc := by
  simp only [getChineseSummary, hmiss]
  by_cases hd : desc = ""
  · simp [hd, displayResolutionSpec]
  · by_cases h100 : jsLength desc < 100
    · by_cases hsub : substituteKeywords desc = desc
      · by_cases h20 : 20 < jsLength desc
        · have hst := simpleTranslate_of_long desc hd hsub h20
          rw [if_pos ⟨hd, by rw [hst]; exact marker_ne desc⟩, hst]
          simp [displayResolutionSpec, hd, hsub, h20]
        · have hst := simpleTranslate_of_short desc hd hsub h20
          rw [if_neg (fun hh => hh.2 hst), if_neg hd]
          simp [displayResolutionSpec, hd, hsub, h20]
      · have hst := simpleTranslate_of_subst desc hd h100 hsub
        rw [if_pos ⟨hd, by rw [hst]; exact hsub⟩, hst]
        simp [displayResolutionSpec, hd, h100, hsub]
    · have h20 : 20 < jsLength desc := by omega
      have hsub0 : (if jsLength desc < 100 then substituteKeywords desc else desc) = desc := by
        rw [if_neg h100]
      have hst : simpleTranslate desc = markerStr ++ desc := by
        simp [simpleTranslate, hd, h100, h20]
      rw [if_pos ⟨hd, by rw [hst]; exact marker_ne desc⟩, hst]
      simp [displayResolutionSpec, hd, h100, h20]

/-- Helper shared by C2 and C10: once the curated lookups miss, keyword
substitution leaves the description unchanged and its length exceeds 20
units, the detail resolver returns the marker-prefixed description through
the display chain, without consulting or writing the translation cache. -/
theorem detail_marker_of_unchanged (curated cache : List (String × String))
    (name desc : String)
    (hmiss : curatedLookup curated name = none)
    (hsub : substituteKeywords desc = desc)
    (h20 : 20 < jsLength desc) :
    getDetailedDescription curated cache name desc = (markerStr ++ desc, cache) := by
  have hd : desc ≠ "" := ne_empty_of_jsLength desc h20
  have hcs : getChineseSummary curated name desc = markerStr ++ desc := by
    rw [displayChain_of_miss curated name desc hmiss]
    simp [displayResolutionSpec, hd, hsub, h20]
  simp only [getDetailedDescription, hcs]
  rw [if_pos ⟨marker_ne_empty desc, marker_ne desc, marker_ne_noDesc desc⟩]

/-! ## The claims -/

/-- Claim C1 (the code contradicts it, and contradicts its own comment
`更新为最新的 star 数量` at dataProcessor.js:122): on the spec's two-day
example, fed through the real pipeline (`readHistoryData` orders snapshots
newest-first and `calculateRanking` overwrites `stars` on every occurrence),
the reported `stars` of `a/x` is `"1,200"` — the value from the snapshot with
the lexicographically SMALLEST day key — not the claimed latest `"1,300"`. -/
theorem calculateRanking_stars_oldest_wins :
    ((calculateRanking (readHistoryData true
        [("trending_2024-01-01.json"), ("trending_2024-01-02.json")]
        (epochMs 2024 1 3) 7
        (fun f =>
          if f = ("trending_2024-01-02.json") then
            some (SnapData.arr [some { name := ("a/x"), stars := ("1,300") }])
          else if f = ("trending_2024-01-01.json") then
            some (SnapData.arr [some { name := ("a/x"), stars := ("1,200") },
                                some { name := ("b/y"), stars := ("500") }])
          else none))).map (fun i => (i.name, i.stars, i.count)))
      = [(("a/x"), ("1,200"), 2), (("b/y"), ("500"), 1)] := by
  decide

/-- Claim C3, counterexample: even when both the translation-cache write and
the ranking-payload write fail, the builder returns its normal in-memory
result — the failure is not re-raised. -/
theorem generateRankingData_swallows_write_failure :
    generateRankingData { week := [], month := [], quarter := [] }
        (Except.error ("EACCES")) (Except.error ("ENOSPC"))
      = Except.ok { week := [], month := [], quarter := [] } := rfl

/-- Claim C3 as amended: a failed cache or payload write is caught and only
logged inside the builder; the build invocation always returns the in-memory
payload normally. -/
theorem generateRankingData_returns_ok (payload : RankingPayload)
    (cacheWriteResult payloadWriteResult : Except String Unit) :
    generateRankingData payload cacheWriteResult payloadWriteResult
      = Except.ok payload := by
  cases payloadWriteResult <;> rfl

/-- Claim C6: `calculateRanking` is deterministic — it is a pure function of
its argument (the source function's only state, `repoMap`, is local, and the
only ambient value it reads is the constant `config.ranking.maxItems`), so
identical snapshot sequences yield identical ordered output. -/
theorem calculateRanking_deterministic (h1 h2 : List HistoryItem) (he : h1 = h2) :
    calculateRanking h1 = calculateRanking h2 := by
  rw [he]

/-- Witness for C6 at a concrete snapshot sequence. -/
theorem calculateRanking_deterministic_witness :
    calculateRanking
        [{ date := ("2024-01-01"),
           data := SnapData.arr [some { name := ("a/x"), stars := ("1,200") }] }]
      = calculateRanking
        [{ date := ("2024-01-01"),
           data := SnapData.arr [some { name := ("a/x"), stars := ("1,200") }] }] :=
  calculateRanking_deterministic _ _ rfl

/-- Claim C7: a unit that fails to parse as snapshot JSON (`none` in the
read loop) is skipped and the ranking is the same as if the file were
absent; likewise a file whose body parses but is not an array is skipped by
the aggregation loop. -/
theorem corrupt_file_skipped (pre post : List (String × Option SnapData))
    (f : String) (h1 h2 : List HistoryItem) (d : String) :
    calculateRanking (readFiles (pre ++ (f, none) :: post))
      = calculateRanking (readFiles (pre ++ post))
  ∧ calculateRanking (h1 ++ { date := d, data := SnapData.nonArray } :: h2)
      = calculateRanking (h1 ++ h2) := by
  constructor
  · have e : readFiles (pre ++ (f, none) :: post) = readFiles (pre ++ post) := by
      rw [show pre ++ (f, none) :: post = (pre ++ [(f, none)]) ++ post from by simp,
        readFiles_append, readFiles_append, readFiles_append]
      simp [readFiles]
    rw [e]
  · have e : buildRepoMap (h1 ++ { date := d, data := SnapData.nonArray } :: h2)
        = buildRepoMap (h1 ++ h2) := by
      simp [buildRepoMap, List.foldl_append, List.foldl_cons, processSnapshot]
    simp only [calculateRanking, sortRanking, e]

/-- Claim C4: for every snapshot sequence (whose per-day entry names are
unique, as the data model requires), the aggregated `count` of a (non-empty)
entity name equals exactly the number of (day, snapshot) pairs containing an
entry with that name — and this holds for any processing order (`h2` is an
arbitrary permutation of `h`); the `count` carried by every returned ranking
item agrees with it. -/
theorem calculateRanking_count_correct (h h2 : List HistoryItem)
    (hperm : List.Perm h h2)
    (hnodup : ∀ it ∈ h, (snapNames it.data).Nodup) :
    (∀ n, n ≠ "" →
        countFor (buildRepoMap h2) n
          = (h.filter (fun it => containsName n it.data)).length)
  ∧ ∀ i ∈ calculateRanking h2,
      i.count = (h.filter (fun it => containsName i.name it.data)).length := by
  have hnodup2 : ∀ it ∈ h2, (snapNames it.data).Nodup :=
    fun it hit => hnodup it (hperm.mem_iff.mpr hit)
  have key : ∀ n, n ≠ "" →
      countFor (buildRepoMap h2) n
        = (h.filter (fun it => containsName n it.data)).length := by
    intro n hn
    have e1 : countFor (buildRepoMap h2) n
        = (h2.map (fun it => occCount n it.data)).sum := by
      simp only [buildRepoMap]
      rw [countFor_foldl_snaps n hn h2 []]
      simp [countFor]
    rw [e1,
      sum_occ_filter n h2 (fun it hit => occCount_le_one n it.data (hnodup2 it hit))]
    exact ((hperm.filter (fun it => containsName n it.data)).length_eq).symm
  refine ⟨key, ?_⟩
  intro i hi
  have hmem : i ∈ buildRepoMap h2 := mem_buildRepoMap_of_mem_ranking hi
  have hgood := goodMap_buildRepoMap h2
  rw [← countFor_eq_count (buildRepoMap h2) hgood.2 i hmem]
  exact key i.name (hgood.1 i hmem)

/-- Witness for C4: the spec's two-day example, processed in the two
opposite orders. -/
theorem calculateRanking_count_correct_witness :
    (∀ n, n ≠ "" →
        countFor (buildRepoMap
          ([{ date := ("2024-01-01"),
              data := SnapData.arr [some { name := ("a/x"), stars := ("1,200") },
                                    some { name := ("b/y"), stars := ("500") }] },
            { date := ("2024-01-02"),
              data := SnapData.arr [some { name := ("a/x"), stars := ("1,300") }] }]
            : List HistoryItem)) n
          = (List.filter (fun it => containsName n it.data)
              ([{ date := ("2024-01-02"),
                  data := SnapData.arr [some { name := ("a/x"), stars := ("1,300") }] },
                { date := ("2024-01-01"),
                  data := SnapData.arr [some { name := ("a/x"), stars := ("1,200") },
                                        some { name := ("b/y"), stars := ("500") }] }]
                : List HistoryItem)).length)
  ∧ ∀ i ∈ calculateRanking
        ([{ date := ("2024-01-01"),
            data := SnapData.arr [some { name := ("a/x"), stars := ("1,200") },
                                  some { name := ("b/y"), stars := ("500") }] },
          { date := ("2024-01-02"),
            data := SnapData.arr [some { name := ("a/x"), stars := ("1,300") }] }]
          : List HistoryItem),
      i.count = (List.filter (fun it => containsName i.name it.data)
          ([{ date := ("2024-01-02"),
              data := SnapData.arr [some { name := ("a/x"), stars := ("1,300") }] },
            { date := ("2024-01-01"),
              data := SnapData.arr [some { name := ("a/x"), stars := ("1,200") },
                                    some { name := ("b/y"), stars := ("500") }] }]
            : List HistoryItem)).length :=
  calculateRanking_count_correct
    ([{ date := ("2024-01-02"),
        data := SnapData.arr [some { name := ("a/x"), stars := ("1,300") }] },
      { date := ("2024-01-01"),
        data := SnapData.arr [some { name := ("a/x"), stars := ("1,200") },
                              some { name := ("b/y"), stars := ("500") }] }]
      : List HistoryItem)
    ([{ date := ("2024-01-01"),
        data := SnapData.arr [some { name := ("a/x"), stars := ("1,200") },
                              some { name := ("b/y"), stars := ("500") }] },
      { date := ("2024-01-02"),
        data := SnapData.arr [some { name := ("a/x"), stars := ("1,300") }] }]
      : List HistoryItem)
    (by decide) (by decide)

/-- Claim C5: the returned ranking is ordered by `count` descending then
numeric stars (commas stripped, `parseInt`, `NaN` as 0) descending; full
ties keep first-encountered order (the filtered subsequence at any sort key
is a subsequence of the first-seen-ordered aggregate list); the output is
the first `maxItems` items, a fixed configuration constant equal to 10, not
derived from the input size. -/
theorem calculateRanking_order_spec (h : List HistoryItem) :
    List.Pairwise
      (fun a b => b.count < a.count ∨ (a.count = b.count ∧ numStars b ≤ numStars a))
      (calculateRanking h)
  ∧ (∀ k : Nat × Int,
      List.Sublist
        ((calculateRanking h).filter (fun i => decide (rankKey i = k)))
        ((buildRepoMap h).filter (fun i => decide (rankKey i = k))))
  ∧ (calculateRanking h).length = min maxItems (buildRepoMap h).length
  ∧ maxItems = 10 := by
  refine ⟨?_, ?_, ?_, rfl⟩
  · have h1 := pairwise_sortB keyLTb keyLTb_asymm keyLTb_co (buildRepoMap h)
    have h2 : List.Pairwise (fun a b => keyLTb b a = false) (calculateRanking h) := by
      simp only [calculateRanking, sortRanking]
      exact List.Pairwise.sublist (List.take_sublist maxItems _) h1
    refine h2.imp ?_
    intro a b hab
    simp only [keyLTb] at hab
    by_cases hc : b.count = a.count
    · rw [if_neg (fun hh => hh hc)] at hab
      simp only [decide_eq_false_iff_not, not_lt] at hab
      right
      exact ⟨hc.symm, hab⟩
    · rw [if_pos hc] at hab
      simp only [decide_eq_false_iff_not, not_lt] at hab
      left
      omega
  · intro k
    have hfs : (sortRanking (buildRepoMap h)).filter (fun i => decide (rankKey i = k))
        = (buildRepoMap h).filter (fun i => decide (rankKey i = k)) := by
      simp only [sortRanking]
      refine filter_sortB keyLTb _ ?_ (buildRepoMap h)
      intro a b ha hb
      simp only [decide_eq_true_eq] at ha hb
      exact keyLTb_eq_rankKey a b (ha.trans hb.symm)
    have hs : List.Sublist
        ((calculateRanking h).filter (fun i => decide (rankKey i = k)))
        ((sortRanking (buildRepoMap h)).filter (fun i => decide (rankKey i = k))) := by
      simp only [calculateRanking]
      exact List.Sublist.filter _ (List.take_sublist maxItems _)
    rw [hfs] at hs
    exact hs
  · simp only [calculateRanking, List.length_take, sortRanking, length_sortB]

/-- Claim C8: a non-existent data directory yields an empty sequence; the
selected snapshot files are exactly those passing the naming filter whose
filename-encoded date lies in the inclusive window
`[now - days·86400000 ms, now]`; and (for listings whose passing files
follow the `trending_YYYY-MM-DD.json` naming convention exactly, the
`hc` hypothesis) the selection is ordered newest-first by day key. -/
theorem readHistoryData_window_spec (files : List String) (nowMs : Int)
    (days : Nat) (contents : String → Option SnapData)
    (hc : ∀ f ∈ files, nameFilter f = true → inWindow nowMs days f = true →
        f = trendingPfx ++ dayKeyOf f ++ trendingExt ∧ (dayKeyOf f).length = 10) :
    readHistoryData false files nowMs days contents = []
  ∧ (∀ f, f ∈ selectRecentFiles files nowMs days ↔
        f ∈ files ∧ nameFilter f = true ∧ inWindow nowMs days f = true)
  ∧ List.Pairwise (fun a b => strLtB (dayKeyOf a) (dayKeyOf b) = false)
      (selectRecentFiles files nowMs days) := by
  refine ⟨rfl, fun f => mem_selectRecentFiles files nowMs days f, ?_⟩
  have hpw := pairwise_selectRecentFiles files nowMs days
  refine List.Pairwise.imp_of_mem ?_ hpw
  intro a b ha hb hab
  rcases (mem_selectRecentFiles files nowMs days a).mp ha with ⟨ha1, ha2, ha3⟩
  rcases (mem_selectRecentFiles files nowMs days b).mp hb with ⟨hb1, hb2, hb3⟩
  rcases hc a ha1 ha2 ha3 with ⟨hca, hla⟩
  rcases hc b hb1 hb2 hb3 with ⟨hcb, hlb⟩
  refine daykey_le_of_canonical (dayKeyOf a) (dayKeyOf b) hla hlb ?_
  rw [← hca, ← hcb]
  exact hab

/-- Witness for C8 on a concrete listing that mixes in-window files, an
out-of-window file and a non-matching file. -/
theorem readHistoryData_window_spec_witness :
    readHistoryData false
        [("trending_2024-01-02.json"), ("junk.txt"),
         ("trending_2024-01-01.json"), ("trending_2023-01-01.json")]
        (epochMs 2024 1 3) 7 (fun _ => none) = []
  ∧ (∀ f, f ∈ selectRecentFiles
        [("trending_2024-01-02.json"), ("junk.txt"),
         ("trending_2024-01-01.json"), ("trending_2023-01-01.json")]
        (epochMs 2024 1 3) 7 ↔
        f ∈ [("trending_2024-01-02.json"), ("junk.txt"),
             ("trending_2024-01-01.json"), ("trending_2023-01-01.json")]
          ∧ nameFilter f = true ∧ inWindow (epochMs 2024 1 3) 7 f = true)
  ∧ List.Pairwise (fun a b => strLtB (dayKeyOf a) (dayKeyOf b) = false)
      (selectRecentFiles
        [("trending_2024-01-02.json"), ("junk.txt"),
         ("trending_2024-01-01.json"), ("trending_2023-01-01.json")]
        (epochMs 2024 1 3) 7) :=
  readHistoryData_window_spec
    [("trending_2024-01-02.json"), ("junk.txt"),
     ("trending_2024-01-01.json"), ("trending_2023-01-01.json")]
    (epochMs 2024 1 3) 7 (fun _ => none) (by decide)

/-- Claim C9: when both curated lookups miss, the display resolver follows
exactly the claimed chain: keyword substitution (for raw descriptions whose
UTF-16 length is below 100) when it changes the text; otherwise the
marker-prefixed text when the length exceeds 20; the fixed placeholder for
an empty description; otherwise the raw description verbatim
(`displayResolutionSpec` is that chain, stated from the claim's words). -/
theorem getChineseSummary_fallback_correct (curated : List (String × String))
    (name desc : String) (hmiss : curatedLookup curated name = none) :
    getChineseSummary curated name desc = displayResolutionSpec desc :=
  displayChain_of_miss curated name desc hmiss

/-- Witness for C9: an empty curated index, a keyword-bearing description. -/
theorem getChineseSummary_fallback_correct_witness :
    getChineseSummary [] ("p/q") ("fast zebra")
      = displayResolutionSpec ("fast zebra") :=
  getChineseSummary_fallback_correct [] ("p/q") ("fast zebra") rfl

/-- Claim C2, counterexample: with the curated entry removed, a name present
in the translation cache whose description matches a keyword does NOT
resolve to the cached value — keyword substitution wins before the cache is
ever consulted (the display chain inside `getChineseSummary` never reads the
cache). -/
theorem getDetailedDescription_cache_loses :
    getDetailedDescription [] [(("a/x"), ("已缓存值"))] ("a/x") ("ai tool")
      = (("人工智能 工具"), [(("a/x"), ("已缓存值"))])
  ∧ ("人工智能 工具" : String) ≠ ("已缓存值") := by
  exact ⟨by decide, by decide⟩

/-- Claim C2 as amended: the actual resolution priority of the detail
resolver is curated text (when truthy and distinct from the raw description
and the placeholder), then keyword substitution (descriptions under 100
units), then the marker prefix (over 20 units), then the translation cache
(reachable only for unchanged descriptions of at most 20 units), then the
raw description. -/
theorem getDetailedDescription_priority (curated cache : List (String × String))
    (name desc : String) :
    (∀ v, curatedLookup curated name = some v → v ≠ desc → v ≠ noDescText →
        getDetailedDescription curated cache name desc = (v, cache))
  ∧ (curatedLookup curated name = none → jsLength desc < 100 →
      substituteKeywords desc ≠ desc → substituteKeywords desc ≠ "" →
      substituteKeywords desc ≠ noDescText →
        getDetailedDescription curated cache name desc
          = (substituteKeywords desc, cache))
  ∧ (curatedLookup curated name = none → substituteKeywords desc = desc →
      20 < jsLength desc →
        getDetailedDescription curated cache name desc = (markerStr ++ desc, cache))
  ∧ (∀ w, curatedLookup curated name = none → substituteKeywords desc = desc →
      jsLength desc ≤ 20 → desc ≠ "" →
      lookupTruthy cache (jsToLower name) = some w →
        getDetailedDescription curated cache name desc = (w, cache))
  ∧ (curatedLookup curated name = none → substituteKeywords desc = desc →
      jsLength desc ≤ 20 → desc ≠ "" →
      lookupTruthy cache (jsToLower name) = none →
        getDetailedDescription curated cache name desc = (desc, cache)) := by
  refine ⟨?_, ?_, ?_, ?_, ?_⟩
  · intro v hv hvd hvn
    have hv0 : v ≠ "" := curatedLookup_ne_empty curated name v hv
    have hcs : getChineseSummary curated name desc = v := by
      simp [getChineseSummary, hv]
    simp only [getDetailedDescription, hcs]
    rw [if_pos ⟨hv0, hvd, hvn⟩]
  · intro hmiss h100 hsub hne hnd
    have hcs : getChineseSummary curated name desc = substituteKeywords desc := by
      rw [displayChain_of_miss curated name desc hmiss]
      have hd : desc ≠ "" := by
        intro hh
        exact hsub (by rw [hh]; decide)
      simp [displayResolutionSpec, hd, h100, hsub]
    simp only [getDetailedDescription, hcs]
    rw [if_pos ⟨hne, hsub, hnd⟩]
  · intro hmiss hsub h20
    exact detail_marker_of_unchanged curated cache name desc hmiss hsub h20
  · intro w hmiss hsub h20 hd hw
    have h20x : ¬ 20 < jsLength desc := by omega
    have hcs : getChineseSummary curated name desc = desc := by
      rw [displayChain_of_miss curated name desc hmiss]
      simp [displayResolutionSpec, hd, hsub, h20x]
    simp only [getDetailedDescription, hcs]
    rw [if_neg (fun hh => hh.2.1 rfl), if_neg hd]
    have htr : translateWithCache cache name desc = (some w, cache) := by
      simp only [translateWithCache]
      rw [if_neg hd, hw]
    rw [htr]
  · intro hmiss hsub h20 hd hw
    have h20x : ¬ 20 < jsLength desc := by omega
    have hst := simpleTranslate_of_short desc hd hsub h20x
    have hcs : getChineseSummary curated name desc = desc := by
      rw [displayChain_of_miss curated name desc hmiss]
      simp [displayResolutionSpec, hd, hsub, h20x]
    simp only [getDetailedDescription, hcs]
    rw [if_neg (fun hh => hh.2.1 rfl), if_neg hd]
    have htr : translateWithCache cache name desc = (none, cache) := by
      simp only [translateWithCache]
      rw [if_neg hd, hw]
      simp [hst, h20x]
    rw [htr]

/-- Witness for the amended C2 priority chain, one concrete instance per
stage. -/
theorem getDetailedDescription_priority_witness :
    getDetailedDescription [(("a/x"), ("人工精选"))] [(("a/x"), ("已缓存值"))]
        ("a/x") ("ai tool")
      = (("人工精选"), [(("a/x"), ("已缓存值"))])
  ∧ getDetailedDescription [] [(("a/x"), ("已缓存值"))] ("a/x") ("ai tool")
      = (("人工智能 工具"), [(("a/x"), ("已缓存值"))])
  ∧ getDetailedDescription [] [(("a/x"), ("已缓存值"))] ("a/x")
        ("yyyy qqqq wwww rrrr tttt")
      = (markerStr ++ ("yyyy qqqq wwww rrrr tttt"), [(("a/x"), ("已缓存值"))])
  ∧ getDetailedDescription [] [(("a/x"), ("已缓存值"))] ("a/x") ("zzzz qqqq")
      = (("已缓存值"), [(("a/x"), ("已缓存值"))])
  ∧ getDetailedDescription [] [] ("a/x") ("zzzz qqqq")
      = (("zzzz qqqq"), []) :=
  ⟨(getDetailedDescription_priority _ _ _ _).1 _ (by decide) (by decide) (by decide),
   (getDetailedDescription_priority _ _ _ _).2.1 (by decide) (by decide) (by decide)
     (by decide) (by decide),
   (getDetailedDescription_priority _ _ _ _).2.2.1 (by decide) (by decide) (by decide),
   (getDetailedDescription_priority _ _ _ _).2.2.2.1 _ (by decide) (by decide)
     (by decide) (by decide) (by decide),
   (getDetailedDescription_priority _ _ _ _).2.2.2.2 (by decide) (by decide)
     (by decide) (by decide) (by decide)⟩

/-- Claim C10, counterexample: for a >20-unit description with no curated
match, no cache entry and no keyword change, the FIRST call already returns
the marker-prefixed value (not the raw description) and leaves the cache
untouched — so a second identical call returns the same value, contradicting
the claimed non-repeatability. -/
theorem getDetailedDescription_repeat_counterexample :
    getDetailedDescription [] [] ("p") ("zzzz qqqq wwww rrrr tttt")
      = (markerStr ++ ("zzzz qqqq wwww rrrr tttt"), ([] : List (String × String)))
  ∧ markerStr ++ ("zzzz qqqq wwww rrrr tttt") ≠ ("zzzz qqqq wwww rrrr tttt") := by
  exact ⟨by decide, by decide⟩

/-- Claim C10 as amended: under those conditions every call to the detail
resolver returns the marker-prefixed description via the display chain and
returns the cache unchanged, so repeated calls with the same inputs are
identical; the cache-writing marker fallback inside `translateWithCache` is
unreachable from the detail resolver in this scenario. -/
theorem getDetailedDescription_marker_no_cache (curated cache : List (String × String))
    (name desc : String)
    (hmiss : curatedLookup curated name = none)
    (hsub : substituteKeywords desc = desc)
    (h20 : 20 < jsLength desc) :
    getDetailedDescription curated cache name desc = (markerStr ++ desc, cache) :=
  detail_marker_of_unchanged curated cache name desc hmiss hsub h20

/-- Witness for the amended C10. -/
theorem getDetailedDescription_marker_no_cache_witness :
    getDetailedDescription [] [(("k"), ("v"))] ("q") ("yyyy qqqq wwww rrrr tttt")
      = (markerStr ++ ("yyyy qqqq wwww rrrr tttt"), [(("k"), ("v"))]) :=
  getDetailedDescription_marker_no_cache [] [(("k"), ("v"))] ("q")
    ("yyyy qqqq wwww rrrr tttt") (by decide) (by decide) (by decide)
